import Mathlib

/-!
Verification development for the citation engine of the Intellidoc research
tool (`src/research/citation_manager.py` and `src/utils/validators.py`).

The Python code is shallowly embedded: strings are Lean `String`/`List Char`,
Python's regex scans are embedded as explicit left-to-right scanners that are
provably equivalent to `re.findall` on the two concrete patterns used by the
code, and fallible Python code (which raises `IndexError` on an empty author
list) is embedded with `Option`.

Character classes follow the ASCII reading of the regexes
(`[a-zA-Z\s&,]`, `[A-Z]`, `\d`); all inputs appearing in the claims are ASCII.
-/

/-- Python `\s` (ASCII part): space, tab, newline, carriage return,
vertical tab, form feed. Also the whitespace stripped by `str.strip()`. -/
def isPySpace (c : Char) : Bool :=
  c.toNat = 32 || c.toNat = 9 || c.toNat = 10 || c.toNat = 13 ||
  c.toNat = 11 || c.toNat = 12

/-- Regex `\d` (ASCII): characters `0`..`9`. -/
def isDigitC (c : Char) : Bool :=
  48 ≤ c.toNat && c.toNat ≤ 57

/-- Regex `[A-Z]`. -/
def isUpperC (c : Char) : Bool :=
  65 ≤ c.toNat && c.toNat ≤ 90

/-- The character class `[a-zA-Z\s&,]` of the in-text citation pattern in
`extract_citations` (`&` is 38, `,` is 44). -/
def isClassChar (c : Char) : Bool :=
  (65 ≤ c.toNat && c.toNat ≤ 90) || (97 ≤ c.toNat && c.toNat ≤ 122) ||
  isPySpace c || c.toNat = 38 || c.toNat = 44

/-- Python `str.strip()`: drop leading and trailing whitespace. -/
def pyStrip (s : String) : String :=
  ⟨((s.data.dropWhile isPySpace).reverse.dropWhile isPySpace).reverse⟩

/-- First character of a list viewed through `[A-Z]`, i.e. whether the
leading character of the regex group `[A-Z][a-zA-Z\s&,]+` is uppercase. -/
def headUpper : List Char → Bool
  | [] => false
  | c :: _ => isUpperC c

/-- A citation mention extracted from text, as built by
`extract_citations`: either an in-text `(Author, Year)` mention
(`authors` is the stripped first regex group, `year` the four matched
digits) or a numbered `[n]` mention (`number` is the matched digit
string, exactly as the Python code stores `re.findall`'s group). -/
inductive Citation where
  | inText (authors : String) (year : String)
  | numbered (number : String)
deriving DecidableEq

/-- Kind test for in-text mentions (`type == "in-text"` in the Python dicts). -/
def Citation.isInText : Citation → Bool
  | .inText _ _ => true
  | .numbered _ => false

/-- Kind test for numbered mentions (`type == "numbered"`). -/
def Citation.isNumbered : Citation → Bool
  | .inText _ _ => false
  | .numbered _ => true

/-- One attempted match of the pattern `\(([A-Z][a-zA-Z\s&,]+),?\s*(\d{4})\)`
at the head of `l`.  Because `,` and `\s` belong to the first group's
character class while digits do not, the greedy group always equals the
maximal run of class characters after `(`, the optional `,?\s*` matches
the empty string, and the four digits must start right where that run
ends.  Returns the two groups and `skip`, the number of characters
consumed beyond the first (total match length is `skip + 1`). -/
def p1MatchAt (l : List Char) : Option ((String × String) × Nat) :=
  match l with
  | [] => none
  | c :: rest =>
    if c = '(' then
      let run := rest.takeWhile isClassChar
      if 2 ≤ run.length ∧ headUpper run = true then
        match rest.drop run.length with
        | d1 :: d2 :: d3 :: d4 :: e :: _ =>
          if isDigitC d1 ∧ isDigitC d2 ∧ isDigitC d3 ∧ isDigitC d4 ∧ e = ')' then
            some ((⟨run⟩, ⟨[d1, d2, d3, d4]⟩), run.length + 5)
          else none
        | _ => none
      else none
    else none

/-- One attempted match of the pattern `\[(\d+)\]` at the head of `l`:
the greedy `\d+` is the maximal digit run after `[`, which must be
nonempty and followed by `]`.  Returns the digit group and the number of
characters consumed beyond the first. -/
def p2MatchAt (l : List Char) : Option (String × Nat) :=
  match l with
  | [] => none
  | c :: rest =>
    if c = '[' then
      let run := rest.takeWhile isDigitC
      if 1 ≤ run.length then
        match rest.drop run.length with
        | e :: _ => if e = ']' then some (⟨run⟩, run.length + 1) else none
        | [] => none
      else none
    else none

/-- The scan loop of `re.findall`: try a match at every position from left
to right; a successful nonempty match is reported and scanning resumes
just past its end (`skip` counts the remaining characters of the current
match still to be stepped over).  Each reported element carries the
absolute position at which its match started. -/
def scanGo {α : Type} (f : List Char → Option (α × Nat))
    (pos skip : Nat) (l : List Char) : List (Nat × α) :=
  match l with
  | [] => []
  | c :: cs =>
    match skip with
    | n + 1 => scanGo f (pos + 1) n cs
    | 0 =>
      match f (c :: cs) with
      | some (a, k) => (pos, a) :: scanGo f (pos + 1) k cs
      | none => scanGo f (pos + 1) 0 cs

/-- `CitationManager.extract_citations`: all in-text matches (first regex
pass, authors group stripped) followed by all numbered matches (second
pass), each pass in left-to-right text order. -/
def extract_citations (text : String) : List Citation :=
  ((scanGo p1MatchAt 0 0 text.data).map
      fun m => Citation.inText (pyStrip m.2.1) m.2.2)
    ++ ((scanGo p2MatchAt 0 0 text.data).map
      fun m => Citation.numbered m.2)

/-- A bibliographic record: the argument tuple of `format_citation` and the
field set read (with empty-string / empty-list defaults via `dict.get`) by
`generate_bibliography` and `validate_citation`.  `year` is kept as the
string it is rendered as (`f"{year}"`); `validate_citation` parses it with
Python `int`. -/
structure Record where
  authors : List String
  year : String
  title : String
  journal : String
  volume : String
  issue : String
  pages : String
  doi : String
deriving DecidableEq

/-- Python `sep.join(list)`. -/
def pyJoin (sep : String) : List String → String
  | [] => ""
  | [x] => x
  | x :: y :: tl => x ++ sep ++ pyJoin sep (y :: tl)

/-- APA author clause of `_format_apa`: one author verbatim, two joined by
`&`, otherwise `authors[0] et al.`.  On an empty list the Python code
evaluates `authors[0]` and raises `IndexError`, embedded as `none`. -/
def apaAuthors : List String → Option String
  | [] => none
  | [a] => some a
  | [a, b] => some (a ++ " & " ++ b)
  | a :: _ :: _ :: _ => some (a ++ " et al.")

/-- Field assembly of `_format_apa` after the author clause `a`. -/
def apaBody (a : String) (r : Record) : String :=
  let c0 := a ++ " (" ++ r.year ++ "). " ++ r.title ++ "."
  let c1 :=
    if r.journal ≠ "" then
      let c2 := c0 ++ " " ++ r.journal
      let c3 :=
        if r.volume ≠ "" then
          let c4 := c2 ++ ", " ++ r.volume
          if r.issue ≠ "" then c4 ++ "(" ++ r.issue ++ ")" else c4
        else c2
      if r.pages ≠ "" then c3 ++ ", " ++ r.pages else c3
    else c0
  if r.doi ≠ "" then c1 ++ ". https://doi.org/" ++ r.doi else c1

/-- `CitationManager._format_apa`. -/
def _format_apa (r : Record) : Option String :=
  (apaAuthors r.authors).map fun a => apaBody a r

/-- MLA author clause of `_format_mla`; `IndexError` on `[]` as `none`. -/
def mlaAuthors : List String → Option String
  | [] => none
  | [a] => some a
  | [a, b] => some (a ++ ", and " ++ b)
  | a :: _ :: _ :: _ => some (a ++ ", et al.")

/-- Field assembly of `_format_mla` after the author clause `a`.  The year
is rendered only inside the journal block. -/
def mlaBody (a : String) (r : Record) : String :=
  let c0 := a ++ ". \"" ++ r.title ++ ".\""
  let c1 :=
    if r.journal ≠ "" then
      let c2 := c0 ++ " " ++ r.journal
      let c3 := if r.volume ≠ "" then c2 ++ ", vol. " ++ r.volume else c2
      let c4 := if r.issue ≠ "" then c3 ++ ", no. " ++ r.issue else c3
      let c5 := c4 ++ ", " ++ r.year
      if r.pages ≠ "" then c5 ++ ", pp. " ++ r.pages else c5
    else c0
  c1 ++ "."

/-- `CitationManager._format_mla`. -/
def _format_mla (r : Record) : Option String :=
  (mlaAuthors r.authors).map fun a => mlaBody a r

/-- Chicago author clause: `", ".join(authors)` (total, `""` on `[]`). -/
def chicagoAuthors (authors : List String) : String :=
  pyJoin (", ") authors

/-- Field assembly of `_format_chicago`. -/
def chicagoBody (a : String) (r : Record) : String :=
  let c0 := a ++ ". \"" ++ r.title ++ ".\""
  let c1 :=
    if r.journal ≠ "" then
      let c2 := c0 ++ " " ++ r.journal ++ " " ++ r.volume
      let c3 := if r.issue ≠ "" then c2 ++ ", no. " ++ r.issue else c2
      let c4 := c3 ++ " (" ++ r.year ++ ")"
      if r.pages ≠ "" then c4 ++ ": " ++ r.pages else c4
    else c0
  let c5 := if r.doi ≠ "" then c1 ++ ". https://doi.org/" ++ r.doi else c1
  c5 ++ "."

/-- `CitationManager._format_chicago`. -/
def _format_chicago (r : Record) : Option String :=
  some (chicagoBody (chicagoAuthors r.authors) r)

/-- Python `str.split()`: split on whitespace runs, no empty tokens.
`acc` accumulates the current token in reverse. -/
def splitWsAux : List Char → List Char → List (List Char)
  | [], acc => if acc = [] then [] else [acc.reverse]
  | c :: cs, acc =>
    if isPySpace c then
      if acc = [] then splitWsAux cs [] else acc.reverse :: splitWsAux cs []
    else splitWsAux cs (c :: acc)

/-- Python `author.split()` as used by `_format_ieee`. -/
def pySplitWs (s : String) : List String :=
  (splitWsAux s.data []).map fun l => (⟨l⟩ : String)

/-- Python `p[0]` on a token: its first character as a string.  Tokens
produced by `split()` are nonempty, so the `""` default is never hit
there. -/
def head1 (t : String) : String :=
  match t.data with
  | [] => ""
  | c :: _ => ⟨[c]⟩

/-- IEEE name transform of `_format_ieee`: for names of at least two
whitespace-separated tokens, `". ".join(first letters of all but the
last) + "."` then a space and the last token; shorter names unchanged. -/
def ieeeName (author : String) : String :=
  let parts := pySplitWs author
  if 2 ≤ parts.length then
    (pyJoin (". ") (parts.dropLast.map head1) ++ ".") ++ " " ++ (parts.getLast?.getD (""))
  else author

/-- IEEE author clause of `_format_ieee`: transformed names, truncated to
`first et al.` when more than three authors, else comma-joined (total,
`""` on `[]`). -/
def ieeeAuthors (authors : List String) : String :=
  let fa := authors.map ieeeName
  if 3 < fa.length then fa.headD ("") ++ " et al."
  else pyJoin (", ") fa

/-- Field assembly of `_format_ieee`. -/
def ieeeBody (a : String) (r : Record) : String :=
  let c0 := a ++ ", \"" ++ r.title ++ ",\""
  let c1 :=
    if r.journal ≠ "" then
      let c2 := c0 ++ " " ++ r.journal
      let c3 := if r.volume ≠ "" then c2 ++ ", vol. " ++ r.volume else c2
      let c4 := if r.issue ≠ "" then c3 ++ ", no. " ++ r.issue else c3
      let c5 := if r.pages ≠ "" then c4 ++ ", pp. " ++ r.pages else c4
      c5 ++ ", " ++ r.year
    else c0
  c1 ++ "."

/-- `CitationManager._format_ieee` (total: no indexing of possibly-empty
lists on the authors path). -/
def _format_ieee (r : Record) : Option String :=
  some (ieeeBody (ieeeAuthors r.authors) r)

/-- Harvard author clause; `IndexError` on `[]` as `none`. -/
def harvardAuthors : List String → Option String
  | [] => none
  | [a] => some a
  | [a, b] => some (a ++ " and " ++ b)
  | a :: _ :: _ :: _ => some (a ++ " et al.")

/-- Field assembly of `_format_harvard`. -/
def harvardBody (a : String) (r : Record) : String :=
  let c0 := a ++ " " ++ r.year ++ ", '" ++ r.title ++ "'"
  let c1 :=
    if r.journal ≠ "" then
      let c2 := c0 ++ ", " ++ r.journal
      let c3 := if r.volume ≠ "" then c2 ++ ", vol. " ++ r.volume else c2
      let c4 := if r.issue ≠ "" then c3 ++ ", no. " ++ r.issue else c3
      if r.pages ≠ "" then c4 ++ ", pp. " ++ r.pages else c4
    else c0
  c1 ++ "."

/-- `CitationManager._format_harvard`. -/
def _format_harvard (r : Record) : Option String :=
  (harvardAuthors r.authors).map fun a => harvardBody a r

/-- `CitationManager.format_citation`: dictionary dispatch on the style
tag, `formatters.get(style, self._format_apa)` falling back to APA for
any unknown tag. -/
def format_citation (r : Record) (style : String) : Option String :=
  if style = "APA 7th" then _format_apa r
  else if style = "MLA 9th" then _format_mla r
  else if style = "Chicago 17th" then _format_chicago r
  else if style = "IEEE" then _format_ieee r
  else if style = "Harvard" then _format_harvard r
  else _format_apa r

/-- Decimal value of a digit string (helper of the `int()` model). -/
def digitsToNat (ds : List Char) : Nat :=
  ds.foldl (fun acc c => acc * 10 + (c.toNat - 48)) 0

/-- Python `int(s)` on a string: optional surrounding whitespace, an
optional sign, then at least one digit; anything else raises
`ValueError`, embedded as `none`.  (Underscore digit grouping and
non-ASCII digits, which Python also accepts, are outside this model; no
claim input uses them.) -/
def pyInt? (s : String) : Option Int :=
  let t := ((s.data.dropWhile isPySpace).reverse.dropWhile isPySpace).reverse
  match t with
  | '+' :: ds => if ds ≠ [] ∧ ds.all isDigitC then some ((digitsToNat ds : Nat) : Int) else none
  | '-' :: ds => if ds ≠ [] ∧ ds.all isDigitC then some (-((digitsToNat ds : Nat) : Int)) else none
  | ds => if ds ≠ [] ∧ ds.all isDigitC then some ((digitsToNat ds : Nat) : Int) else none

/-- `CitationManager.validate_citation`.  Required fields must be present
and truthy (a missing key and a falsy value both return `False`, so a
record with empty-valued fields models both).  The year must parse as an
`int` in `[1500, datetime.now().year + 1]`; the wall-clock year is the
explicit parameter `currentYear`. -/
def validate_citation (currentYear : Int) (c : Record) : Bool :=
  if c.authors = [] then false
  else if c.year = "" then false
  else if c.title = "" then false
  else
    match pyInt? c.year with
    | none => false
    | some y => if y < 1500 ∨ y > currentYear + 1 then false else true

/-- `Validators.validate_year` from `src/utils/validators.py`:
`1900 <= int(year) <= 2030`, `False` when `int` raises. -/
def validate_year (year : String) : Bool :=
  match pyInt? year with
  | none => false
  | some y => decide (1900 ≤ y ∧ y ≤ 2030)

/-- Lexicographic code-point comparison on character lists: exactly the
order Python `<=` uses on `str`. -/
def lexLe : List Char → List Char → Bool
  | [], _ => true
  | _ :: _, [] => false
  | x :: xs, y :: ys =>
    if x.toNat < y.toNat then true
    else if y.toNat < x.toNat then false
    else lexLe xs ys

/-- Python string comparison `a <= b` (lexicographic by code point). -/
def pyStrLe (a b : String) : Bool :=
  lexLe a.data b.data

/-- Python `list.sort()` on strings: stable ascending lexicographic
(code-point) sort; on this linear order any correct ascending sort
computes the same list, embedded with insertion sort. -/
def pySort (l : List String) : List String :=
  List.insertionSort (fun a b => pyStrLe a b = true) l

/-- `CitationManager.generate_bibliography`: format every record in input
order (an exception from a formatter propagates, hence `mapM`), sort the
formatted strings, join with a blank line. -/
def generate_bibliography (citations : List Record) (style : String) : Option String :=
  match citations.mapM (fun c => format_citation c style) with
  | none => none
  | some fs => some (pyJoin ("\n\n") (pySort fs))

theorem strAppend_assoc (a b c : String) : a ++ b ++ c = a ++ (b ++ c) := by
  apply String.ext
  simp [String.data_append, List.append_assoc]

/-- C5: for every record and every style string outside the five supported
tags, `format_citation` produces exactly the APA result (the
`formatters.get(style, self._format_apa)` fallback); in particular an
unknown tag introduces no failure beyond what the APA path itself does. -/
theorem c5_unknown_style_fallback (r : Record) (style : String)
    (h : style ∉ (["APA 7th", "MLA 9th", "Chicago 17th", "IEEE", "Harvard"] : List String)) :
    format_citation r style = format_citation r ("APA 7th") := by
  simp only [List.mem_cons, List.not_mem_nil, or_false, not_or] at h
  obtain ⟨h1, h2, h3, h4, h5⟩ := h
  simp [format_citation, h1, h2, h3, h4, h5]

/-- Witness for C5 at the style tag `Vancouver`. -/
theorem c5_witness :
    format_citation ⟨["Smith, J."], "2023", "T", "J", "1", "2", "3-4", "d1"⟩ ("Vancouver") =
      format_citation ⟨["Smith, J."], "2023", "T", "J", "1", "2", "3-4", "d1"⟩ ("APA 7th") :=
  c5_unknown_style_fallback _ _ (by decide)

/-- C7: the APA authors clause is the single name for one author,
`A & B` for two, and `first et al.` for three or more; the clause is what
`_format_apa` builds its output from, and on the three-author example
`["Smith, J.", "Jones, K.", "Lee, R."]` it is `Smith, J. et al.`. -/
theorem c7_apa_author_branches :
    (∀ a : String, apaAuthors [a] = some a)
  ∧ (∀ a b : String, apaAuthors [a, b] = some (a ++ " & " ++ b))
  ∧ (∀ (a b c : String) (rest : List String),
      apaAuthors (a :: b :: c :: rest) = some (a ++ " et al."))
  ∧ (∀ r : Record, _format_apa r = (apaAuthors r.authors).map fun a => apaBody a r)
  ∧ apaAuthors ["Smith, J.", "Jones, K.", "Lee, R."] = some ("Smith, J. et al.") := by
  exact ⟨fun a => rfl, fun a b => rfl, fun a b c rest => rfl, fun r => rfl, by decide⟩

/-- C1 (amended): on an empty author list the APA, MLA and Harvard
formatters raise `IndexError` (`authors[0]` in their else branch),
embedded as `none`; only the Chicago and IEEE formatters are total there,
rendering an empty authors clause. -/
theorem c1_empty_authors_behavior (r : Record) (h : r.authors = []) :
    _format_apa r = none ∧ _format_mla r = none ∧ _format_harvard r = none
  ∧ _format_chicago r = some (chicagoBody ("") r)
  ∧ _format_ieee r = some (ieeeBody ("") r) := by
  refine ⟨?_, ?_, ?_, ?_, ?_⟩ <;>
    simp [_format_apa, _format_mla, _format_harvard, _format_chicago, _format_ieee,
      apaAuthors, mlaAuthors, harvardAuthors, chicagoAuthors, ieeeAuthors, pyJoin, h]

/-- Counterexample to C1 as stated: formatting a record with an empty
author list in the default APA style does not return a string; the
Python code raises `IndexError` (embedded: `none`). -/
theorem c1_counterexample :
    format_citation ⟨[], "2023", "Title", "", "", "", "", ""⟩ ("APA 7th") = none := by
  decide

/-- Witness for C1 (amended) on a concrete empty-author record. -/
theorem c1_witness :
    _format_apa ⟨[], "2023", "Title", "", "", "", "", ""⟩ = none
  ∧ _format_mla ⟨[], "2023", "Title", "", "", "", "", ""⟩ = none
  ∧ _format_harvard ⟨[], "2023", "Title", "", "", "", "", ""⟩ = none
  ∧ _format_chicago ⟨[], "2023", "Title", "", "", "", "", ""⟩ =
      some (chicagoBody ("") ⟨[], "2023", "Title", "", "", "", "", ""⟩)
  ∧ _format_ieee ⟨[], "2023", "Title", "", "", "", "", ""⟩ =
      some (ieeeBody ("") ⟨[], "2023", "Title", "", "", "", "", ""⟩) :=
  c1_empty_authors_behavior _ rfl

/-- C9: for a record with an empty journal field whose author clause
renders as `a`, the MLA output is exactly `a`, a period, the title in
double quotes with the period inside, and a final period; the year,
volume, issue and pages clauses all live inside the skipped journal
block, so none of them appears. -/
theorem c9_mla_empty_journal (r : Record) (a : String)
    (hj : r.journal = "") (ha : mlaAuthors r.authors = some a) :
    _format_mla r = some (a ++ ". \"" ++ r.title ++ ".\"" ++ ".") := by
  simp [_format_mla, ha, mlaBody, hj]

/-- Witness for C9 on a concrete one-author, journal-free record. -/
theorem c9_witness :
    _format_mla ⟨["Doe"], "2023", "T", "", "", "", "", ""⟩ =
      some ("Doe" ++ ". \"" ++ "T" ++ ".\"" ++ ".") :=
  c9_mla_empty_journal _ _ rfl rfl

/-- Counterexample to C2 as stated: a record with all required fields and
numeric year 1800 is accepted by `validate_citation` (with the wall
clock at year 2026), because the code's band is `[1500, current_year+1]`,
not `[1900, 2030]`. -/
theorem c2_counterexample :
    validate_citation 2026 ⟨["Smith, J."], "1800", "Title", "", "", "", "", ""⟩ = true := by
  decide

/-- C2 (amended): with required fields present and a numeric year,
`validate_citation` accepts exactly the years in `[1500, currentYear+1]`
(so 1800 is accepted, not rejected); the `[1900, 2030]` band of the claim
is enforced only by the separate utility `Validators.validate_year`,
which indeed rejects 1800 and accepts 2023. -/
theorem c2_year_band :
    (∀ (cy : Int) (c : Record) (y : Int), c.authors ≠ [] → c.title ≠ "" → c.year ≠ "" →
        pyInt? c.year = some y →
        (validate_citation cy c = true ↔ 1500 ≤ y ∧ y ≤ cy + 1))
  ∧ (∀ (s : String) (y : Int), pyInt? s = some y →
        (validate_year s = true ↔ 1900 ≤ y ∧ y ≤ 2030))
  ∧ validate_year ("1800") = false ∧ validate_year ("2023") = true := by
  refine ⟨?_, ?_, by decide, by decide⟩
  · intro cy c y ha ht hy hp
    simp only [validate_citation, ha, ht, hy, hp, if_false]
    split_ifs with hb
    · simp only [Bool.false_eq_true, false_iff]
      omega
    · simp only [true_iff]
      omega
  · intro s y hp
    simp [validate_year, hp]

/-- Witness for C2 (amended): the year-1800 record and the standalone
year validator at 2023. -/
theorem c2_witness :
    (validate_citation 2026 ⟨["Smith, J."], "1800", "Title", "", "", "", "", ""⟩ = true ↔
        1500 ≤ (1800 : Int) ∧ (1800 : Int) ≤ 2026 + 1)
  ∧ (validate_year ("2023") = true ↔ 1900 ≤ (2023 : Int) ∧ (2023 : Int) ≤ 2030) :=
  ⟨c2_year_band.1 2026 _ 1800 (by decide) (by decide) (by decide) (by decide),
   c2_year_band.2.1 ("2023") 2023 (by decide)⟩

theorem lexLe_total : ∀ xs ys : List Char, lexLe xs ys = true ∨ lexLe ys xs = true := by
  intro xs
  induction xs with
  | nil => intro ys; left; rfl
  | cons x xs ih =>
    intro ys
    cases ys with
    | nil => right; rfl
    | cons y ys =>
      by_cases hxy : x.toNat < y.toNat
      · left; simp [lexLe, hxy]
      · by_cases hyx : y.toNat < x.toNat
        · right; simp [lexLe, hyx]
        · rcases ih ys with h | h
          · left; simp [lexLe, hxy, hyx, h]
          · right; simp [lexLe, hxy, hyx, h]

theorem lexLe_trans :
    ∀ xs ys zs : List Char, lexLe xs ys = true → lexLe ys zs = true → lexLe xs zs = true := by
  intro xs
  induction xs with
  | nil => intro ys zs _ _; rfl
  | cons x xs ih =>
    intro ys zs h1 h2
    cases ys with
    | nil => simp [lexLe] at h1
    | cons y ys =>
      cases zs with
      | nil => simp [lexLe] at h2
      | cons z zs =>
        simp only [lexLe] at h1 h2 ⊢
        split_ifs at h1 h2 ⊢ with hxy hyx hyz hzy hxz hzx
        all_goals first
          | rfl
          | omega
          | (exact ih ys zs h1 h2)

instance : IsTotal String fun a b => pyStrLe a b = true :=
  ⟨fun a b => lexLe_total a.data b.data⟩

instance : IsTrans String fun a b => pyStrLe a b = true :=
  ⟨fun a b c => lexLe_trans a.data b.data c.data⟩

/-- C6: the bibliography of an empty record list is the empty string, and
whenever formatting all records succeeds with strings `fs` (in input
order), the bibliography is exactly a lexicographically sorted
rearrangement of `fs` joined with a blank line (`\n\n`) — a pure string
sort of the rendered entries, not a sort by any record field. -/
theorem c6_bibliography :
    (∀ style : String, generate_bibliography [] style = some (""))
  ∧ (∀ (rs : List Record) (style : String) (fs : List String),
      rs.mapM (fun r => format_citation r style) = some fs →
      ∃ l : List String, l.Perm fs ∧ List.Sorted (fun a b => pyStrLe a b = true) l ∧
        generate_bibliography rs style = some (pyJoin ("\n\n") l)) := by
  refine ⟨fun style => rfl, ?_⟩
  intro rs style fs h
  refine ⟨pySort fs, List.perm_insertionSort _ fs, List.sorted_insertionSort _ fs, ?_⟩
  unfold generate_bibliography
  rw [h]

/-- Witness for C6: two APA records given in anti-alphabetical order. -/
theorem c6_witness :
    ∃ l : List String, l.Perm ["Smith (2020). T.", "Adams (2021). U."] ∧
      List.Sorted (fun a b => pyStrLe a b = true) l ∧
      generate_bibliography
        [⟨["Smith"], "2020", "T", "", "", "", "", ""⟩,
         ⟨["Adams"], "2021", "U", "", "", "", "", ""⟩] ("APA 7th") =
        some (pyJoin ("\n\n") l) :=
  c6_bibliography.2
    [⟨["Smith"], "2020", "T", "", "", "", "", ""⟩,
     ⟨["Adams"], "2021", "U", "", "", "", "", ""⟩] ("APA 7th")
    ["Smith (2020). T.", "Adams (2021). U."] (by decide)

theorem pyJoin_initials (ts : List String) (h : ts ≠ []) :
    pyJoin (". ") (ts.map head1) ++ "." =
      pyJoin (" ") (ts.map fun t => head1 t ++ ".") := by
  induction ts with
  | nil => cases h rfl
  | cons t tl ih =>
    cases tl with
    | nil => rfl
    | cons t2 tl2 =>
      have step := ih (by simp)
      have hsep : (". " : String) = "." ++ " " := by decide
      show (head1 t ++ ". " ++ pyJoin (". ") (List.map head1 (t2 :: tl2))) ++ "." =
        (head1 t ++ ".") ++ " " ++ pyJoin (" ") (List.map (fun t => head1 t ++ ".") (t2 :: tl2))
      rw [strAppend_assoc (head1 t ++ ". "), step, strAppend_assoc (head1 t), hsep,
        strAppend_assoc ("." : String), strAppend_assoc (head1 t ++ "."),
        strAppend_assoc (head1 t)]

/-- C8: in the IEEE style every author name of two or more
whitespace-separated tokens is rewritten to initials plus surname — each
token but the last contributes its first letter followed by a period,
the initials are separated by single spaces, and the unchanged last
token follows after a space; then the authors clause truncates to
`first et al.` for more than three authors and is the comma-joined list
otherwise. -/
theorem c8_ieee_transform :
    (∀ (a : String) (ts : List String) (t : String),
        pySplitWs a = ts ++ [t] → 1 ≤ ts.length →
        ieeeName a = pyJoin (" ") (ts.map fun tok => head1 tok ++ ".") ++ " " ++ t)
  ∧ (∀ authors : List String, 3 < authors.length →
        ieeeAuthors authors = ieeeName (authors.headD ("")) ++ " et al.")
  ∧ (∀ authors : List String, ¬ 3 < authors.length →
        ieeeAuthors authors = pyJoin (", ") (authors.map ieeeName)) := by
  refine ⟨?_, ?_, ?_⟩
  · intro a ts t hsplit hlen
    have hne : ts ≠ [] := by
      intro e; rw [e] at hlen; simp at hlen
    have hlen2 : 2 ≤ (ts ++ [t]).length := by
      simp only [List.length_append, List.length_cons, List.length_nil]
      omega
    simp only [ieeeName, hsplit]
    rw [if_pos hlen2]
    simp only [List.dropLast_concat, List.getLast?_concat, Option.getD_some]
    rw [pyJoin_initials ts hne]
  · intro authors hgt
    cases authors with
    | nil => simp at hgt
    | cons a tl =>
      have hlen : 3 < (ieeeName a :: List.map ieeeName tl).length := by
        simp only [List.length_cons, List.length_map]
        simpa using hgt
      simp only [ieeeAuthors, List.map_cons, List.headD_cons]
      rw [if_pos hlen]
  · intro authors hle
    have hlen : ¬ 3 < (authors.map ieeeName).length := by simpa using hle
    simp only [ieeeAuthors]
    rw [if_neg hlen]

/-- Witness for C8: a three-token name and a four-author record. -/
theorem c8_witness :
    ieeeName ("John K Smith") =
      pyJoin (" ") ((["John", "K"]).map fun tok => head1 tok ++ ".") ++ " " ++ "Smith"
  ∧ ieeeAuthors ["A B", "C D", "E F", "G H"] =
      ieeeName ((["A B", "C D", "E F", "G H"] : List String).headD ("")) ++ " et al." :=
  ⟨c8_ieee_transform.1 ("John K Smith") ["John", "K"] ("Smith") (by decide) (by decide),
   c8_ieee_transform.2.1 ["A B", "C D", "E F", "G H"] (by decide)⟩

theorem digit_not_class (c : Char) (h : isDigitC c = true) : isClassChar c = false := by
  simp only [isDigitC, Bool.and_eq_true, decide_eq_true_eq] at h
  simp only [isClassChar, isPySpace, Bool.or_eq_false_iff, Bool.and_eq_false_iff,
    decide_eq_false_iff_not]
  omega

theorem class_ne_lparen (c : Char) (h : isClassChar c = true) : c ≠ '(' := by
  intro e; subst e; revert h; decide

theorem digit_ne_lparen (c : Char) (h : isDigitC c = true) : c ≠ '(' := by
  intro e; subst e; revert h; decide

theorem digit_ne_lbracket (c : Char) (h : isDigitC c = true) : c ≠ '[' := by
  intro e; subst e; revert h; decide

theorem takeWhile_eq_of_append (p : Char → Bool) (xs : List Char) (y : Char) (tl : List Char)
    (h1 : ∀ c ∈ xs, p c = true) (h2 : p y = false) :
    (xs ++ y :: tl).takeWhile p = xs := by
  induction xs with
  | nil => simp [List.takeWhile_cons, h2]
  | cons x xs ih =>
    have hx : p x = true := h1 x (List.mem_cons_self x xs)
    simp only [List.cons_append, List.takeWhile_cons, hx, if_true]
    rw [ih fun c hc => h1 c (List.mem_cons_of_mem x hc)]

theorem p1MatchAt_eq (run : List Char) (d1 d2 d3 d4 : Char) (t : List Char)
    (hcls : ∀ c ∈ run, isClassChar c = true) (hlen : 2 ≤ run.length)
    (hup : headUpper run = true)
    (h1 : isDigitC d1 = true) (h2 : isDigitC d2 = true) (h3 : isDigitC d3 = true)
    (h4 : isDigitC d4 = true) :
    p1MatchAt ('(' :: (run ++ d1 :: d2 :: d3 :: d4 :: ')' :: t)) =
      some ((⟨run⟩, ⟨[d1, d2, d3, d4]⟩), run.length + 5) := by
  have htw : (run ++ d1 :: d2 :: d3 :: d4 :: ')' :: t).takeWhile isClassChar = run :=
    takeWhile_eq_of_append _ _ _ _ hcls (digit_not_class d1 h1)
  have hdrop : (run ++ d1 :: d2 :: d3 :: d4 :: ')' :: t).drop run.length =
      d1 :: d2 :: d3 :: d4 :: ')' :: t := List.drop_left run _
  simp [p1MatchAt, htw, hdrop, h1, h2, h3, h4, hlen, hup]

theorem p2MatchAt_eq (ds : List Char) (t : List Char)
    (hne : 1 ≤ ds.length) (hds : ∀ c ∈ ds, isDigitC c = true) :
    p2MatchAt ('[' :: (ds ++ ']' :: t)) = some (⟨ds⟩, ds.length + 1) := by
  have htw : (ds ++ ']' :: t).takeWhile isDigitC = ds :=
    takeWhile_eq_of_append _ _ _ _ hds (by decide)
  have hdrop : (ds ++ ']' :: t).drop ds.length = ']' :: t := List.drop_left ds _
  simp [p2MatchAt, htw, hdrop, hne]

theorem p1MatchAt_ne_head (l : List Char) (h : ∀ c, l.head? = some c → c ≠ '(') :
    p1MatchAt l = none := by
  cases l with
  | nil => rfl
  | cons c rest =>
    have hc : c ≠ '(' := h c rfl
    simp [p1MatchAt, hc]

theorem p2MatchAt_ne_head (l : List Char) (h : ∀ c, l.head? = some c → c ≠ '[') :
    p2MatchAt l = none := by
  cases l with
  | nil => rfl
  | cons c rest =>
    have hc : c ≠ '[' := h c rfl
    simp [p2MatchAt, hc]

theorem p1MatchAt_inv (l : List Char) (g y : String) (L : Nat)
    (h : p1MatchAt l = some ((g, y), L)) :
    ∃ (run : List Char) (d1 d2 d3 d4 : Char) (t : List Char),
      l = '(' :: (run ++ d1 :: d2 :: d3 :: d4 :: ')' :: t)
      ∧ (∀ c ∈ run, isClassChar c = true)
      ∧ 2 ≤ run.length ∧ headUpper run = true
      ∧ isDigitC d1 = true ∧ isDigitC d2 = true ∧ isDigitC d3 = true ∧ isDigitC d4 = true
      ∧ g = ⟨run⟩ ∧ y = ⟨[d1, d2, d3, d4]⟩ ∧ L = run.length + 5 := by
  cases l with
  | nil => simp [p1MatchAt] at h
  | cons c rest =>
    by_cases hc : c = '('
    case neg => simp [p1MatchAt, hc] at h
    subst hc
    simp only [p1MatchAt] at h
    rw [if_pos trivial] at h
    by_cases hcond : 2 ≤ (rest.takeWhile isClassChar).length ∧
        headUpper (rest.takeWhile isClassChar) = true
    case neg => rw [if_neg hcond] at h; exact absurd h (by simp)
    rw [if_pos hcond] at h
    have hd2 : rest.drop (rest.takeWhile isClassChar).length = rest.dropWhile isClassChar := by
      have hdl := List.drop_left (rest.takeWhile isClassChar) (rest.dropWhile isClassChar)
      rw [List.takeWhile_append_dropWhile] at hdl
      exact hdl
    rw [hd2] at h
    split at h
    case _ d1 d2 d3 d4 e tail heq =>
      by_cases hdig : isDigitC d1 ∧ isDigitC d2 ∧ isDigitC d3 ∧ isDigitC d4 ∧ e = ')'
      case neg => rw [if_neg hdig] at h; exact absurd h (by simp)
      rw [if_pos hdig] at h
      obtain ⟨hd1, hd2', hd3, hd4, he⟩ := hdig
      subst he
      have hrest : rest = rest.takeWhile isClassChar ++ d1 :: d2 :: d3 :: d4 :: ')' :: tail := by
        conv_lhs => rw [← List.takeWhile_append_dropWhile isClassChar rest]
        rw [heq]
      refine ⟨rest.takeWhile isClassChar, d1, d2, d3, d4, tail, by rw [← hrest], ?_, hcond.1,
        hcond.2, hd1, hd2', hd3, hd4, ?_, ?_, ?_⟩
      · exact fun c hc => List.mem_takeWhile_imp hc
      all_goals
        simp only [Option.some.injEq, Prod.mk.injEq] at h
        tauto
    case _ =>
      exact absurd h (by simp)

theorem p2MatchAt_inv (l : List Char) (g : String) (L : Nat)
    (h : p2MatchAt l = some (g, L)) :
    ∃ (ds : List Char) (t : List Char),
      l = '[' :: (ds ++ ']' :: t)
      ∧ (∀ c ∈ ds, isDigitC c = true) ∧ 1 ≤ ds.length
      ∧ g = ⟨ds⟩ ∧ L = ds.length + 1 := by
  cases l with
  | nil => simp [p2MatchAt] at h
  | cons c rest =>
    by_cases hc : c = '['
    case neg => simp [p2MatchAt, hc] at h
    subst hc
    simp only [p2MatchAt] at h
    rw [if_pos trivial] at h
    by_cases hcond : 1 ≤ (rest.takeWhile isDigitC).length
    case neg => rw [if_neg hcond] at h; exact absurd h (by simp)
    rw [if_pos hcond] at h
    have hd2 : rest.drop (rest.takeWhile isDigitC).length = rest.dropWhile isDigitC := by
      have hdl := List.drop_left (rest.takeWhile isDigitC) (rest.dropWhile isDigitC)
      rw [List.takeWhile_append_dropWhile] at hdl
      exact hdl
    rw [hd2] at h
    split at h
    case _ e tail heq =>
      by_cases he : e = ']'
      case neg => rw [if_neg he] at h; exact absurd h (by simp)
      rw [if_pos he] at h
      subst he
      have hrest : rest = rest.takeWhile isDigitC ++ ']' :: tail := by
        conv_lhs => rw [← List.takeWhile_append_dropWhile isDigitC rest]
        rw [heq]
      refine ⟨rest.takeWhile isDigitC, tail, by rw [← hrest],
        fun c hc => List.mem_takeWhile_imp hc, hcond, ?_, ?_⟩
      all_goals
        simp only [Option.some.injEq, Prod.mk.injEq] at h
        tauto
    case _ =>
      exact absurd h (by simp)

theorem p1_span (l : List Char) (a : String × String) (L : Nat)
    (h : p1MatchAt l = some (a, L)) :
    ∀ k, 1 ≤ k → k ≤ L → p1MatchAt (l.drop k) = none := by
  intro k hk1 hkL
  obtain ⟨run, d1, d2, d3, d4, t, hl, hcls, hlen, hup, hd1, hd2, hd3, hd4, hg, hy, hL⟩ :=
    p1MatchAt_inv l a.1 a.2 L h
  have hmid : l = '(' :: ((run ++ [d1, d2, d3, d4, ')']) ++ t) := by
    rw [hl]; simp [List.append_assoc]
  set mid := run ++ [d1, d2, d3, d4, ')'] with hmiddef
  have hmlen : mid.length = run.length + 5 := by
    simp [hmiddef]
  obtain ⟨k', rfl⟩ : ∃ k', k = k' + 1 := ⟨k - 1, by omega⟩
  have hk'lt : k' < mid.length := by omega
  have hdropk : l.drop (k' + 1) = mid.drop k' ++ t.drop (k' - mid.length) := by
    rw [hmid, List.drop_succ_cons, List.drop_append_eq_append_drop]
  have hne : mid.drop k' ≠ [] := by
    rw [Ne, List.drop_eq_nil_iff]; omega
  apply p1MatchAt_ne_head
  intro c hc
  rcases hmd : mid.drop k' with _ | ⟨c0, cs0⟩
  · exact absurd hmd hne
  rw [hdropk, hmd] at hc
  simp only [List.cons_append, List.head?_cons, Option.some.injEq] at hc
  subst hc
  have hcmem : c0 ∈ mid := List.drop_subset k' mid (by rw [hmd]; exact List.mem_cons_self _ _)
  rw [hmiddef] at hcmem
  rcases List.mem_append.mp hcmem with hin | hin
  · exact class_ne_lparen c0 (hcls c0 hin)
  · simp only [List.mem_cons, List.not_mem_nil, or_false] at hin
    rcases hin with rfl | rfl | rfl | rfl | rfl
    · exact digit_ne_lparen _ hd1
    · exact digit_ne_lparen _ hd2
    · exact digit_ne_lparen _ hd3
    · exact digit_ne_lparen _ hd4
    · decide

theorem p2_span (l : List Char) (a : String) (L : Nat)
    (h : p2MatchAt l = some (a, L)) :
    ∀ k, 1 ≤ k → k ≤ L → p2MatchAt (l.drop k) = none := by
  intro k hk1 hkL
  obtain ⟨ds, t, hl, hds, hlen, hg, hL⟩ := p2MatchAt_inv l a L h
  have hmid : l = '[' :: ((ds ++ [']']) ++ t) := by
    rw [hl]; simp [List.append_assoc]
  set mid := ds ++ [']'] with hmiddef
  have hmlen : mid.length = ds.length + 1 := by
    simp [hmiddef]
  obtain ⟨k', rfl⟩ : ∃ k', k = k' + 1 := ⟨k - 1, by omega⟩
  have hk'lt : k' < mid.length := by omega
  have hdropk : l.drop (k' + 1) = mid.drop k' ++ t.drop (k' - mid.length) := by
    rw [hmid, List.drop_succ_cons, List.drop_append_eq_append_drop]
  have hne : mid.drop k' ≠ [] := by
    rw [Ne, List.drop_eq_nil_iff]; omega
  apply p2MatchAt_ne_head
  intro c hc
  rcases hmd : mid.drop k' with _ | ⟨c0, cs0⟩
  · exact absurd hmd hne
  rw [hdropk, hmd] at hc
  simp only [List.cons_append, List.head?_cons, Option.some.injEq] at hc
  subst hc
  have hcmem : c0 ∈ mid := List.drop_subset k' mid (by rw [hmd]; exact List.mem_cons_self _ _)
  rw [hmiddef] at hcmem
  rcases List.mem_append.mp hcmem with hin | hin
  · exact digit_ne_lbracket c0 (hds c0 hin)
  · simp only [List.mem_singleton] at hin
    subst hin
    decide

/-- No reported match is skipped: if the matcher succeeds on the suffix at
position `k` (and matches never start strictly inside an earlier match,
which is `hspan`), the scan starting `skip ≤ k` characters before the
end of any pending match reports that match at absolute position
`pos + k`. -/
theorem scanGo_complete {α : Type} (f : List Char → Option (α × Nat))
    (hnil : f [] = none)
    (hspan : ∀ l a L, f l = some (a, L) → ∀ j, 1 ≤ j → j ≤ L → f (l.drop j) = none)
    (l : List Char) :
    ∀ (pos skip k : Nat) (a : α) (L : Nat),
      skip ≤ k → f (l.drop k) = some (a, L) →
      (pos + k, a) ∈ scanGo f pos skip l := by
  induction l with
  | nil =>
    intro pos skip k a L _ h
    rw [List.drop_nil, hnil] at h
    exact absurd h (by simp)
  | cons c cs ih =>
    intro pos skip k a L hsk h
    cases skip with
    | succ n =>
      obtain ⟨k', rfl⟩ : ∃ k', k = k' + 1 := ⟨k - 1, by omega⟩
      have h' : f (cs.drop k') = some (a, L) := h
      have hmem := ih (pos + 1) n k' a L (by omega) h'
      show (pos + (k' + 1), a) ∈ scanGo f pos (n + 1) (c :: cs)
      simp only [scanGo]
      have harith : pos + (k' + 1) = pos + 1 + k' := by omega
      rw [harith]
      exact hmem
    | zero =>
      cases k with
      | zero =>
        rw [List.drop_zero] at h
        show (pos + 0, a) ∈ scanGo f pos 0 (c :: cs)
        simp only [scanGo, h]
        exact List.mem_cons_self _ _
      | succ k' =>
        cases hf : f (c :: cs) with
        | none =>
          have h' : f (cs.drop k') = some (a, L) := h
          have hmem := ih (pos + 1) 0 k' a L (Nat.zero_le _) h'
          show (pos + (k' + 1), a) ∈ scanGo f pos 0 (c :: cs)
          simp only [scanGo, hf]
          have harith : pos + (k' + 1) = pos + 1 + k' := by omega
          rw [harith]
          exact hmem
        | some r =>
          obtain ⟨a', L'⟩ := r
          by_cases hkL : k' + 1 ≤ L'
          · have hnone := hspan (c :: cs) a' L' hf (k' + 1) (by omega) hkL
            rw [hnone] at h
            exact absurd h (by simp)
          · have h' : f (cs.drop k') = some (a, L) := h
            have hmem := ih (pos + 1) L' k' a L (by omega) h'
            show (pos + (k' + 1), a) ∈ scanGo f pos 0 (c :: cs)
            simp only [scanGo, hf]
            have harith : pos + (k' + 1) = pos + 1 + k' := by omega
            rw [harith]
            exact List.mem_cons_of_mem _ hmem

theorem scanGo_pos_le {α : Type} (f : List Char → Option (α × Nat)) (l : List Char) :
    ∀ (pos skip : Nat) (p : Nat × α), p ∈ scanGo f pos skip l → pos ≤ p.1 := by
  induction l with
  | nil => intro pos skip p hp; simp [scanGo] at hp
  | cons c cs ih =>
    intro pos skip p hp
    cases skip with
    | succ n =>
      simp only [scanGo] at hp
      exact le_trans (by omega) (ih (pos + 1) n p hp)
    | zero =>
      cases hf : f (c :: cs) with
      | none =>
        simp only [scanGo, hf] at hp
        exact le_trans (by omega) (ih (pos + 1) 0 p hp)
      | some r =>
        obtain ⟨a', L'⟩ := r
        simp only [scanGo, hf, List.mem_cons] at hp
        rcases hp with rfl | hp
        · exact le_refl _
        · exact le_trans (by omega) (ih (pos + 1) L' p hp)

theorem scanGo_chain {α : Type} (f : List Char → Option (α × Nat)) (l : List Char) :
    ∀ pos skip : Nat, List.Chain' (fun p q => p.1 < q.1) (scanGo f pos skip l) := by
  induction l with
  | nil => intro pos skip; simp [scanGo]
  | cons c cs ih =>
    intro pos skip
    cases skip with
    | succ n => simp only [scanGo]; exact ih _ _
    | zero =>
      cases hf : f (c :: cs) with
      | none => simp only [scanGo, hf]; exact ih _ _
      | some r =>
        obtain ⟨a', L'⟩ := r
        simp only [scanGo, hf]
        rw [List.chain'_cons']
        refine ⟨?_, ih _ _⟩
        intro q hq
        have hqmem : q ∈ scanGo f (pos + 1) L' cs := by
          cases hh : scanGo f (pos + 1) L' cs with
          | nil => rw [hh] at hq; simp at hq
          | cons x xs =>
            rw [hh] at hq
            simp only [List.head?_cons, Option.mem_def, Option.some.injEq] at hq
            rw [← hq]
            exact List.mem_cons_self _ _
        have hle := scanGo_pos_le f cs (pos + 1) L' q hqmem
        show pos < q.1
        omega

/-- C10: the extractor output is the in-text mentions followed by the
numbered mentions, never interleaved: every element of the first block
is an in-text mention and every element of the second a numbered one,
each block coming from its own scan whose reported match positions are
strictly increasing (left-to-right text order). -/
theorem c10_kind_partition (s : String) :
    ∃ ts ns : List Citation,
      extract_citations s = ts ++ ns
      ∧ (∀ m ∈ ts, m.isInText = true)
      ∧ (∀ m ∈ ns, m.isNumbered = true)
      ∧ ts = (scanGo p1MatchAt 0 0 s.data).map (fun m => Citation.inText (pyStrip m.2.1) m.2.2)
      ∧ ns = (scanGo p2MatchAt 0 0 s.data).map (fun m => Citation.numbered m.2)
      ∧ List.Chain' (· < ·) ((scanGo p1MatchAt 0 0 s.data).map Prod.fst)
      ∧ List.Chain' (· < ·) ((scanGo p2MatchAt 0 0 s.data).map Prod.fst) := by
  refine ⟨_, _, rfl, ?_, ?_, rfl, rfl, ?_, ?_⟩
  · intro m hm
    simp only [List.mem_map] at hm
    obtain ⟨x, _, rfl⟩ := hm
    rfl
  · intro m hm
    simp only [List.mem_map] at hm
    obtain ⟨x, _, rfl⟩ := hm
    rfl
  · rw [List.chain'_map]
    exact scanGo_chain p1MatchAt s.data 0 0
  · rw [List.chain'_map]
    exact scanGo_chain p2MatchAt s.data 0 0

/-- Counterexample to C4 as stated: `(A2023)` contains a well-formed
in-text citation substring in the claim's sense (capitalized one-letter
author phrase `A`, no comma, the 4-digit year, closing parenthesis), yet
the extractor reports nothing: the regex group `[A-Z][a-zA-Z\s&,]+`
requires at least two characters before the digits. -/
theorem c4_counterexample :
    extract_citations ("(A2023)") = []
  ∧ Citation.inText ("A") ("2023") ∉ extract_citations ("(A2023)") :=
  ⟨by decide, by decide⟩

/-- C4 (amended): every occurrence of `(`, then a phrase of at least two
characters from the class letters/whitespace/`&`/`,` starting with a
capital letter, immediately followed by four digits and `)`, is reported
as an InText mention whose authors field is the phrase (which, being
maximal, absorbs any trailing comma and spaces) stripped of surrounding
whitespace and whose year is the four digits; and every occurrence of
`[`, a nonempty digit run, `]` is reported as a Numbered mention whose
number field is the digit string. -/
theorem c4_wellformed_found (s : String) :
    (∀ (k : Nat) (P : List Char) (d1 d2 d3 d4 : Char) (t : List Char),
        s.data.drop k = '(' :: (P ++ d1 :: d2 :: d3 :: d4 :: ')' :: t) →
        (∀ c ∈ P, isClassChar c = true) → 2 ≤ P.length → headUpper P = true →
        isDigitC d1 = true → isDigitC d2 = true → isDigitC d3 = true → isDigitC d4 = true →
        Citation.inText (pyStrip ⟨P⟩) ⟨[d1, d2, d3, d4]⟩ ∈ extract_citations s)
  ∧ (∀ (k : Nat) (ds : List Char) (t : List Char),
        s.data.drop k = '[' :: (ds ++ ']' :: t) →
        1 ≤ ds.length → (∀ c ∈ ds, isDigitC c = true) →
        Citation.numbered ⟨ds⟩ ∈ extract_citations s) := by
  constructor
  · intro k P d1 d2 d3 d4 t hk hcls hlen hup h1 h2 h3 h4
    have hm : p1MatchAt (s.data.drop k) =
        some ((⟨P⟩, ⟨[d1, d2, d3, d4]⟩), P.length + 5) := by
      rw [hk]
      exact p1MatchAt_eq P d1 d2 d3 d4 t hcls hlen hup h1 h2 h3 h4
    have hmem := scanGo_complete p1MatchAt rfl p1_span s.data 0 0 k _ _ (Nat.zero_le k) hm
    exact List.mem_append_left _ (List.mem_map_of_mem _ hmem)
  · intro k ds t hk hlen hds
    have hm : p2MatchAt (s.data.drop k) = some (⟨ds⟩, ds.length + 1) := by
      rw [hk]
      exact p2MatchAt_eq ds t hlen hds
    have hmem := scanGo_complete p2MatchAt rfl p2_span s.data 0 0 k _ _ (Nat.zero_le k) hm
    exact List.mem_append_right _ (List.mem_map_of_mem _ hmem)

/-- Witness for C4 (amended) on `(Smith, 2023) [4]`: the greedy phrase is
`Smith, ` (comma and space absorbed), stripped to `Smith,`; the numbered
mention carries the digit string `4`. -/
theorem c4_witness :
    Citation.inText (pyStrip ("Smith, ")) ("2023") ∈ extract_citations ("(Smith, 2023) [4]")
  ∧ Citation.numbered ("4") ∈ extract_citations ("(Smith, 2023) [4]") := by
  constructor
  · exact (c4_wellformed_found ("(Smith, 2023) [4]")).1 0 ("Smith, ".data) '2' '0' '2' '3'
      (" [4]".data) (by decide) (by decide) (by decide) (by decide) (by decide) (by decide)
      (by decide) (by decide)
  · exact (c4_wellformed_found ("(Smith, 2023) [4]")).2 14 ['4'] [] (by decide) (by decide)
      (by decide)

/-- C3: the extractor evaluated on the spec's end-to-end example text
produces only the numbered mention `4`; the narrative citation
`Smith (2023)` yields no InText mention, because the in-text pattern
requires the author phrase inside the parentheses and `(2023)` starts
with a digit.  (The repository's own test `test_extract_citations`
expects at least two mentions from exactly this narrative style of text,
so the code contradicts its own test suite here.) -/
theorem c3_example_eval :
    extract_citations
        ("According to Smith (2023), models improve accuracy. See also [4] for a survey.")
      = [Citation.numbered ("4")]
  ∧ Citation.inText ("Smith") ("2023") ∉
      extract_citations
        ("According to Smith (2023), models improve accuracy. See also [4] for a survey.") :=
  ⟨by decide, by decide⟩
